import Mathlib

/-!
Verification of the PST splitter core (pstsplitter): shallow embedding of
`splitter.py`, `util.py` and `performance_optimizer.py` in Lean 4, with
theorems checking the natural-language specification's claims against the
code.

Modelling conventions:
* Python `int` sizes are `Int`; byte counts reported by the code are `Int`.
* `datetime` values are modelled at day granularity (`PyDate`), ordered
  lexicographically; no claim depends on sub-day resolution.
* Python `dict` (insertion-ordered) is an association list
  `List (String × List MailItemInfo)` with `defaultdict`-style append.
* Python float elapsed time is modelled as `Rat`; Python's `/` raising
  `ZeroDivisionError` is modelled by returning `Except.error`.
* External effects (COM enumeration, PST creation, the cancellation Event)
  are oracles supplied in an environment record; the control flow that
  consumes them is translated from the source.
-/

deriving instance DecidableEq for Except

/-- Day-granularity model of a Python naive `datetime`. -/
structure PyDate where
  year : Nat
  month : Nat
  day : Nat
deriving DecidableEq, Repr

/-- Lexicographic strict order on dates, as Python compares datetimes. -/
def PyDate.lt (a b : PyDate) : Bool :=
  a.year < b.year ||
    (a.year = b.year && (a.month < b.month ||
      (a.month = b.month && a.day < b.day)))

/-- Python `datetime.min` (year 1, month 1, day 1). -/
def datetime_min : PyDate := ⟨1, 1, 1⟩

/-- Model of `outlook.MailItemInfo`: lightweight representation of an
Outlook item (entry id, subject, size in bytes, optional received date,
slash-separated folder path relative to the store root, optional sender). -/
structure MailItemInfo where
  entry_id : String
  subject : String
  size : Int
  received : Option PyDate := none
  folder_path : String := ""
  sender_email : Option String := none
deriving DecidableEq, Repr, Inhabited

/-- Kernel-computable model of Python `str.split(sep)` over the character
list: splitting the empty string yields `[""]`, as in Python. -/
def splitOnChar (c : Char) : List Char → List (List Char)
  | [] => [[]]
  | x :: xs =>
    if x = c then [] :: splitOnChar c xs
    else
      match splitOnChar c xs with
      | h :: t => (x :: h) :: t
      | [] => [[x]]

/-- Python `s.split(sep)` for a one-character separator. -/
def pySplit (sep : Char) (s : String) : List String :=
  (splitOnChar sep s.data).map String.mk

/-- Python `s.lower()` (ASCII case folding suffices here). -/
def pyToLower (s : String) : String := String.mk (s.data.map Char.toLower)

/-- Python `s.strip()`: whitespace removed from both ends. -/
def pyStrip (s : String) : String :=
  String.mk (((s.data.dropWhile Char.isWhitespace).reverse.dropWhile
    Char.isWhitespace).reverse)

/-- Character of a decimal digit `d < 10`. -/
def digitChar (d : Nat) : Char := Char.ofNat (48 + d)

/-- Fuel-driven decimal digit list of a natural number (most significant
first); `fuel ≥ n + 1` always suffices. Models Python `str(n)` / `%Y`. -/
def natDigitsAux : Nat → Nat → List Char
  | _, 0 => []
  | n, fuel + 1 =>
    if n < 10 then [digitChar n]
    else natDigitsAux (n / 10) fuel ++ [digitChar (n % 10)]

/-- Decimal string of a natural number; models Python's unpadded decimal
formatting (`str(n)`, `strftime("%Y")` on this platform). -/
def natStr (n : Nat) : String := String.mk (natDigitsAux n (n + 1))

/-- Zero-padded two-digit decimal, models Python `strftime("%m")`. -/
def pad2 (n : Nat) : String := if n < 10 then "0" ++ natStr n else natStr n

/-- Zero-padded three-digit decimal, models Python `f"{n:03d}"`. -/
def pad3 (n : Nat) : String :=
  if n < 10 then "00" ++ natStr n
  else if n < 100 then "0" ++ natStr n
  else natStr n

/-- Key produced by `strftime("%Y-%m")` in `group_items_by_month`. -/
def fmtYM (d : PyDate) : String := natStr d.year ++ "-" ++ pad2 d.month

/-- Insertion-ordered dict update matching `defaultdict(list)`'s
`groups[key].append(item)`: append to the existing bucket, else add a new
`(key, [item])` entry at the end. -/
def dictAppend (gs : List (String × List MailItemInfo)) (k : String)
    (it : MailItemInfo) : List (String × List MailItemInfo) :=
  match gs with
  | [] => [(k, [it])]
  | (k', l) :: rest =>
    if k' = k then (k', l ++ [it]) :: rest else (k', l) :: dictAppend rest k it

/-- Insertion-ordered dict assignment `groups[key] = value`: replace in
place if the key exists, else add at the end. -/
def dictSet (gs : List (String × List MailItemInfo)) (k : String)
    (v : List MailItemInfo) : List (String × List MailItemInfo) :=
  match gs with
  | [] => [(k, v)]
  | (k', l) :: rest =>
    if k' = k then (k', v) :: rest else (k', l) :: dictSet rest k v

/-- Lookup in the dict model (empty list when absent). -/
def dictGet (gs : List (String × List MailItemInfo)) (k : String) :
    List MailItemInfo :=
  match gs with
  | [] => []
  | (k', l) :: rest => if k' = k then l else dictGet rest k

/-- Key membership in the dict model. -/
def hasKey (gs : List (String × List MailItemInfo)) (k : String) : Bool :=
  gs.any (fun p => p.1 == k)

/-- Summed `size` over a list of items, as `sum(item.size for ...)`. -/
def sumSizes (l : List MailItemInfo) : Int := (l.map MailItemInfo.size).sum

/-- Recursive core of `group_items_by_size` (splitter.py:29). The Python
loop keeps an output accumulator `buckets`; here flushed buckets are
emitted in front of the recursive call, in the same order. `cur`/`csize`
are the loop's `current`/`current_size`. -/
def groupBySizeAux (maxBytes : Int) :
    List MailItemInfo → List MailItemInfo → Int → List (List MailItemInfo)
  | [], cur, _ => if cur = [] then [] else [cur]
  | it :: rest, cur, csize =>
    if it.size > maxBytes then
      (if cur = [] then [[it]] ++ groupBySizeAux maxBytes rest [] 0
       else [cur, [it]] ++ groupBySizeAux maxBytes rest [] 0)
    else if csize + it.size > maxBytes ∧ cur ≠ [] then
      cur :: groupBySizeAux maxBytes rest [it] it.size
    else
      groupBySizeAux maxBytes rest (cur ++ [it]) (csize + it.size)

/-- Model of `splitter.group_items_by_size`: greedy size-based grouping of
items into buckets. -/
def group_items_by_size (items : List MailItemInfo) (maxBytes : Int) :
    List (List MailItemInfo) :=
  groupBySizeAux maxBytes items [] 0

/-- Loop body of `group_items_by_month`: append the item under the
`"%Y-%m"` key of `item.received or datetime.min`. -/
def monthStep (gs : List (String × List MailItemInfo)) (item : MailItemInfo) :
    List (String × List MailItemInfo) :=
  dictAppend gs (fmtYM (item.received.getD datetime_min)) item

/-- Model of `splitter.group_items_by_month`: groups items by the
`"%Y-%m"` key of `item.received or datetime.min`. -/
def group_items_by_month (items : List MailItemInfo) :
    List (String × List MailItemInfo) :=
  items.foldl monthStep []

/-- Loop body of `group_items_by_year`: a dated item is appended under its
`strftime("%Y")` key, an undated one is collected in `unknown_items`. -/
def yearStep (p : List (String × List MailItemInfo) × List MailItemInfo)
    (item : MailItemInfo) :
    List (String × List MailItemInfo) × List MailItemInfo :=
  match item.received with
  | some d => (dictAppend p.1 (natStr d.year) item, p.2)
  | none => (p.1, p.2 ++ [item])

/-- Model of `splitter.group_items_by_year`: dated items are grouped under
`strftime("%Y")` of their received date; undated items are collected and,
if any exist, assigned to the `"Unknown_Date"` key at the end. -/
def group_items_by_year (items : List MailItemInfo) :
    List (String × List MailItemInfo) :=
  let st := items.foldl yearStep ([], [])
  if st.2 = [] then st.1 else dictSet st.1 "Unknown_Date" st.2

/-- Loop body of `_group_by_folder`: append under the first slash-segment
of `folder_path`, the empty path mapping to `"Root"`. -/
def folderStep (gs : List (String × List MailItemInfo))
    (item : MailItemInfo) : List (String × List MailItemInfo) :=
  let folder_path := item.folder_path
  let top_folder :=
    if folder_path ≠ "" then (pySplit '/' folder_path).headD ""
    else "Root"
  dictAppend gs top_folder item

/-- Model of `splitter._group_by_folder`: groups items by the first
slash-segment of `folder_path`, the empty path going to `"Root"`. -/
def _group_by_folder (items : List MailItemInfo) :
    List (String × List MailItemInfo) :=
  items.foldl folderStep []

/-- Recursive core of `util.chunk_sequence` (util.py:109), structured like
`groupBySizeAux`; note the flush condition lacks the `and current` guard
present in `group_items_by_size`. -/
def chunkAux (maxSum : Int) : List Int → List Int → Int → List (List Int)
  | [], chunk, _ => if chunk = [] then [] else [chunk]
  | v :: rest, chunk, total =>
    if v > maxSum then
      (if chunk = [] then [[v]] ++ chunkAux maxSum rest [] 0
       else [chunk, [v]] ++ chunkAux maxSum rest [] 0)
    else if total + v > maxSum then
      chunk :: chunkAux maxSum rest [v] v
    else
      chunkAux maxSum rest (chunk ++ [v]) (total + v)

/-- Model of `util.chunk_sequence`: greedy grouping of integers into
chunks with a maximum summed size. -/
def chunk_sequence (items : List Int) (maxSum : Int) : List (List Int) :=
  chunkAux maxSum items [] 0

/-- Model of `splitter._matches_folder_filter` (splitter.py:554): splits
`folder_path` on a BACKSLASH, requires at least two components, and tests
the lower-cased second component (`folder_parts[1]`) for membership. -/
def _matches_folder_filter (folder_path : String) (folder_filters : List String) :
    Bool :=
  if folder_path = "" then false
  else
    match pySplit '\\' folder_path with
    | _ :: second :: _ => folder_filters.contains (pyToLower second)
    | _ => false

/-- Model of `splitter._matches_sender_domain`: the part after the last
`"@"`, lower-cased, must belong to the domain set. -/
def _matches_sender_domain (sender_email : String) (sender_domains : List String) :
    Bool :=
  if sender_email = "" then false
  else if !sender_email.data.contains '@' then false
  else sender_domains.contains (pyToLower ((pySplit '@' sender_email).getLastD ""))

/-- Model of `splitter._matches_date_range`: item must have a date, not
before `start_date` and not after `end_date` (absent bounds are open). -/
def _matches_date_range (item_date start_date end_date : Option PyDate) : Bool :=
  match item_date with
  | none => false
  | some d =>
    (match start_date with
     | some s => !PyDate.lt d s
     | none => true) &&
    (match end_date with
     | some e => !PyDate.lt e d
     | none => true)

/-- Optional date-range argument: a present tuple of optional bounds,
as `Optional[tuple[Optional[datetime], Optional[datetime]]]`. -/
def DateRange := Option (Option PyDate × Option PyDate)

/-- Model of `splitter._apply_filters` (splitter.py:525): each optional
criterion, when supplied (Python truthiness: non-empty set / present
tuple with a present bound), filters the running list in turn. -/
def _apply_filters (items : List MailItemInfo) (include_folders exclude_folders
    sender_domains : List String) (date_range : DateRange) :
    List MailItemInfo :=
  let f1 :=
    if include_folders ≠ [] then
      items.filter (fun item => _matches_folder_filter item.folder_path include_folders)
    else items
  let f2 :=
    if exclude_folders ≠ [] then
      f1.filter (fun item => !_matches_folder_filter item.folder_path exclude_folders)
    else f1
  let f3 :=
    if sender_domains ≠ [] then
      f2.filter (fun item => _matches_sender_domain (item.sender_email.getD "") sender_domains)
    else f2
  match date_range with
  | some (start_date, end_date) =>
    if start_date.isSome || end_date.isSome then
      f3.filter (fun item => _matches_date_range item.received start_date end_date)
    else f3
  | none => f3

/-- Combined Boolean predicate equivalent to one `_apply_filters` pass
(inactive criteria contribute `true`). -/
def filterPred (include_folders exclude_folders sender_domains : List String)
    (date_range : DateRange) (item : MailItemInfo) : Bool :=
  (match date_range with
   | some (s, e) =>
     if s.isSome || e.isSome then _matches_date_range item.received s e else true
   | none => true) &&
  ((if sender_domains ≠ [] then
      _matches_sender_domain (item.sender_email.getD "") sender_domains
    else true) &&
   ((if exclude_folders ≠ [] then
       !_matches_folder_filter item.folder_path exclude_folders
     else true) &&
    (if include_folders ≠ [] then
       _matches_folder_filter item.folder_path include_folders
     else true)))

/-- Per-item transfer result reaching `copy_items_optimized`'s inner try
block: `none` = the copy succeeded, `some msg` = the underlying
`copy_item_to_store` raised with message `msg`. -/
def TransferOutcome := Option String

/-- Result record of `copy_items_optimized` (performance_optimizer.py:43):
failed items are `(item_id truncated to 50, error, year)` triples; the
`cancelled` key is absent unless set, read back with default `False`. -/
structure CopyOut where
  success_count : Nat
  failed_items : List (String × String × String)
  total_time_ms : Rat
  avg_time_per_item_ms : Rat
  batches_processed : Nat
  cancelled : Bool
deriving DecidableEq, Repr

/-- Mutable state of the batch/item loops in `copy_items_optimized`. -/
structure CopySt where
  success : Nat
  failed : List (String × String × String)
  processed : Nat
  batches : Nat
  cancelled : Bool
deriving DecidableEq, Repr

/-- Fuel-driven batching of a list into slices of `bs` items, modelling
`range(0, total_items, batch_size)` slicing; `fuel ≥ length` suffices
when `bs ≥ 1`. -/
def toBatchesAux (bs : Nat) : Nat → List α → List (List α)
  | 0, _ => []
  | fuel + 1, l =>
    if l.isEmpty then [] else l.take bs :: toBatchesAux bs fuel (l.drop bs)

/-- Batching of a list into consecutive slices of `bs` items. -/
def toBatches (bs : Nat) (l : List α) : List (List α) :=
  toBatchesAux bs l.length l

/-- Inner per-item loop of `copy_items_optimized` (lines 81-142): checks
cancellation per item; on success increments `success_count`; on a raised
transfer error, in performance mode `_optimized_item_transfer` swallows
the exception and returns `False` (nothing is recorded), otherwise the
`except` branch records `(entry_id[:50], error, "Unknown")`;
`processed_count` advances for every attempted item. -/
def copyBatchItems (perfMode : Bool) (outcome : Nat → TransferOutcome)
    (cancelItem : Nat → Bool) :
    List (Nat × MailItemInfo) → CopySt → CopySt
  | [], st => st
  | (idx, it) :: rest, st =>
    if cancelItem idx then { st with cancelled := true }
    else
      let st' :=
        match outcome idx with
        | none => { st with success := st.success + 1 }
        | some msg =>
          if perfMode then st
          else { st with failed := st.failed ++
            [(String.mk (it.entry_id.data.take 50), msg, "Unknown")] }
      copyBatchItems perfMode outcome cancelItem rest
        { st' with processed := st'.processed + 1 }

/-- Outer batch loop of `copy_items_optimized` (lines 61-166): checks
cancellation at each batch start (indexed by the batch's first item);
`batches_processed` advances only for batches that complete. -/
def copyBatches (perfMode : Bool) (outcome : Nat → TransferOutcome)
    (cancelBatch cancelItem : Nat → Bool) :
    List (List (Nat × MailItemInfo)) → CopySt → CopySt
  | [], st => st
  | b :: rest, st =>
    if cancelBatch ((b.headD (0, default)).1) then { st with cancelled := true }
    else
      let st' := copyBatchItems perfMode outcome cancelItem b st
      if st'.cancelled then st'
      else
        copyBatches perfMode outcome cancelBatch cancelItem rest
          { st' with batches := st'.batches + 1 }

/-- Model of `HighPerformancePSTProcessor.copy_items_optimized`
(performance_optimizer.py:26). Empty input returns the zeroed result
before any timing math. Otherwise the batched loop runs, then the final
metrics are computed: `avg_time_per_item_ms` is guarded by
`total_items > 0`, but the `items_per_second` metric on line 178 divides
by `total_time_ms / 1000` unguarded — a zero elapsed time raises
`ZeroDivisionError`, modelled as `Except.error`. -/
def copy_items_optimized (items : List MailItemInfo) (perfMode : Bool)
    (batchSize : Nat) (outcome : Nat → TransferOutcome)
    (cancelBatch cancelItem : Nat → Bool) (totalTimeMs : Rat) :
    Except String CopyOut :=
  if items = [] then .ok ⟨0, [], 0, 0, 0, false⟩
  else
    let st := copyBatches perfMode outcome cancelBatch cancelItem
      (toBatches batchSize items.enum) ⟨0, [], 0, 0, false⟩
    if totalTimeMs = 0 then .error "ZeroDivisionError: float division by zero"
    else
      .ok ⟨st.success, st.failed, totalTimeMs,
        totalTimeMs / (items.length : Rat), st.batches, st.cancelled⟩

/-- Summary record `splitter.SplitResult`: created destination paths,
items considered, bytes considered, and the error-string list (`none`
when the run recorded no error strings). -/
structure SplitResult where
  created_files : List String
  total_items : Nat
  total_bytes : Int
  errors : Option (List String)
deriving DecidableEq, Repr

/-- Python falsy-or-nonpositive test on `max_size_bytes`
(`not max_size_bytes or max_size_bytes <= 0`). -/
def sizeInvalid (maxSize : Option Int) : Bool :=
  match maxSize with
  | none => true
  | some v => v ≤ 0

/-- Environment of oracles for one `split_pst` run: the outcome of
enumeration (an `error` is an exception reaching the handler on
splitter.py:489), the cancellation flag observed at the post-enumeration
check and at the top of each group iteration, the per-group copy result,
a per-group exception in the group's try block (PST creation etc.), and
whether each group's target file exists at the final check. -/
structure SplitEnv where
  enumerate : Except String (List MailItemInfo)
  cancelAfterEnum : Bool
  cancelAtGroup : Nat → Bool
  copyGroup : Nat → CopyOut
  groupFail : Nat → Option String
  targetExists : Nat → Bool

/-- Filter-set normalization on entry to `split_pst` (splitter.py:288):
strip, drop empties, lower-case (Python set semantics only change
iteration order, which the code never relies on for membership). -/
def normalizeFilterSet (s : List String) : List String :=
  if s = [] then s
  else (s.filter (fun f => pyStrip f ≠ "")).map (fun f => pyToLower (pyStrip f))

/-- Filter stage of `split_pst` (splitter.py:348): `_apply_filters` runs
only when some criterion is supplied. -/
def filterStage (items : List MailItemInfo) (inc exc snd : List String)
    (dr : DateRange) : List MailItemInfo :=
  if inc ≠ [] ∨ exc ≠ [] ∨ snd ≠ [] ∨ (Option.isSome dr) then
    _apply_filters items inc exc snd dr
  else items

/-- Bucket name `f"part{i+1:03d}"` for size mode. -/
def partName (i : Nat) : String := "part" ++ pad3 (i + 1)

/-- Grouping dispatch of `split_pst` (splitter.py:360-375) yielding
`(group items, group name)` pairs in order; unknown modes and a `None`
size raise `ValueError`, which the surrounding `except` turns into an
accumulated error. -/
def modeGroups (mode : String) (maxSize : Option Int)
    (items : List MailItemInfo) :
    Except String (List (List MailItemInfo × String)) :=
  if mode = "size" then
    match maxSize with
    | none => .error "max_size_bytes cannot be None for size mode"
    | some m =>
      let gs := group_items_by_size items m
      .ok (gs.enum.map (fun p => (p.2, partName p.1)))
  else if mode = "year" then
    .ok ((group_items_by_year items).map (fun p => (p.2, p.1)))
  else if mode = "month" then
    .ok ((group_items_by_month items).map (fun p => (p.2, p.1)))
  else .error ("Unknown mode: " ++ mode)

/-- Loop state of the per-group loop in `split_pst` (lines 379-487). -/
structure LoopSt where
  created_files : List String
  errs : List String
  total_bytes : Int
  cumulative : Nat
deriving DecidableEq, Repr

/-- Per-group loop of `split_pst` (lines 384-487), indexed by the group
counter: a set cancellation flag at the top of an iteration breaks out;
empty groups are skipped; a group-level exception appends
`"Failed to process group <name>: <msg>"` and continues; otherwise (not a
dry run) the copy result is consulted — a cancelled copy breaks out
before any accounting, else the success count, the group's byte sum and
(if the target file exists) the created path are recorded. A dry run
counts the group and its bytes and creates nothing. -/
def processGroups (env : SplitEnv) (dryRun : Bool) (stem : String) :
    List (List MailItemInfo × String) → Nat → LoopSt → LoopSt
  | [], _, st => st
  | (group_items, group_name) :: rest, i, st =>
    if env.cancelAtGroup i then st
    else if group_items = [] then processGroups env dryRun stem rest (i + 1) st
    else
      match env.groupFail i with
      | some msg =>
        processGroups env dryRun stem rest (i + 1)
          { st with errs := st.errs ++
              ["Failed to process group " ++ group_name ++ ": " ++ msg] }
      | none =>
        if dryRun then
          processGroups env dryRun stem rest (i + 1)
            { st with cumulative := st.cumulative + group_items.length,
                      total_bytes := st.total_bytes + sumSizes group_items }
        else
          let cr := env.copyGroup i
          if cr.cancelled then st
          else
            let st' := { st with cumulative := st.cumulative + cr.success_count,
                                 total_bytes := st.total_bytes + sumSizes group_items }
            let st'' :=
              if env.targetExists i then
                { st' with created_files := st'.created_files ++
                    [stem ++ "_" ++ group_name ++ ".pst"] }
              else st'
            processGroups env dryRun stem rest (i + 1) st''

/-- Model of `splitter.split_pst` (splitter.py:181): pre-start validation
raises (`Except.error`); afterwards enumeration, the post-enumeration
cancellation check, filtering, grouping and the per-group loop all feed a
returned `SplitResult`, every exception inside the main try block landing
in the accumulated error list (handler on line 489); the final result
maps an empty error list to `none` (line 522). -/
def split_pst (mode : String) (maxSize : Option Int) (dryRun : Bool)
    (stem : String) (inc exc snd : List String) (dr : DateRange)
    (env : SplitEnv) : Except String SplitResult :=
  if mode = "size" ∧ sizeInvalid maxSize = true then
    .error "max_size_bytes must be positive for size mode"
  else
    let inc' := normalizeFilterSet inc
    let exc' := normalizeFilterSet exc
    let snd' := normalizeFilterSet snd
    match env.enumerate with
    | .error e =>
      .ok ⟨[], 0, 0, some ["Split operation failed: " ++ e]⟩
    | .ok items0 =>
      if env.cancelAfterEnum then
        .ok ⟨[], 0, 0, some ["Operation cancelled"]⟩
      else
        let items := filterStage items0 inc' exc' snd' dr
        if items.length = 0 then .ok ⟨[], 0, 0, none⟩
        else
          match modeGroups mode maxSize items with
          | .error e =>
            .ok ⟨[], items.length, 0, some ["Split operation failed: " ++ e]⟩
          | .ok pairs =>
            let st := processGroups env dryRun stem pairs 0 ⟨[], [], 0, 0⟩
            .ok ⟨st.created_files, items.length, st.total_bytes,
              if st.errs = [] then none else some st.errs⟩

/-- Concrete items and environments used to evaluate the orchestration
model at specific inputs. -/
def itemW20 : MailItemInfo := ⟨"w1", "s", 1, some ⟨2020, 1, 1⟩, "", none⟩

def itemW21 : MailItemInfo := ⟨"w2", "s", 2, some ⟨2021, 1, 1⟩, "", none⟩

def itemInboxW : MailItemInfo := ⟨"f1", "s", 1, none, "Inbox/Sub", none⟩

def itemRootW : MailItemInfo := ⟨"f2", "s", 2, none, "", none⟩

/-- A copy result with one transferred item and nothing failed. -/
def copyOutW : CopyOut := ⟨1, [], 1, 1, 1, false⟩

/-- Environment: two dated items enumerate fine, cancellation is observed
at the top of group iteration 1, every created target exists. -/
def envW : SplitEnv :=
  { enumerate := .ok [itemW20, itemW21]
    cancelAfterEnum := false
    cancelAtGroup := fun i => i == 1
    copyGroup := fun _ => copyOutW
    groupFail := fun _ => none
    targetExists := fun _ => true }

/-- Environment: enumeration yields nothing and nothing is cancelled. -/
def envE : SplitEnv :=
  { enumerate := .ok []
    cancelAfterEnum := false
    cancelAtGroup := fun _ => false
    copyGroup := fun _ => copyOutW
    groupFail := fun _ => none
    targetExists := fun _ => false }

/-- Environment: one item enumerates, then the post-enumeration
cancellation check fires. -/
def envCancel : SplitEnv :=
  { enumerate := .ok [itemW20]
    cancelAfterEnum := true
    cancelAtGroup := fun _ => false
    copyGroup := fun _ => copyOutW
    groupFail := fun _ => none
    targetExists := fun _ => false }

/-- Environment: two folder-carrying items enumerate fine and nothing is
cancelled. -/
def envFolder : SplitEnv :=
  { enumerate := .ok [itemInboxW, itemRootW]
    cancelAfterEnum := false
    cancelAtGroup := fun _ => false
    copyGroup := fun _ => copyOutW
    groupFail := fun _ => none
    targetExists := fun _ => false }

/-- Concatenation of all bucket values of the dict model, in order. -/
def valuesJoin (gs : List (String × List MailItemInfo)) : List MailItemInfo :=
  (gs.map Prod.snd).flatten

example : chunk_sequence [10, 20, 30, 40] 50 = [[10, 20], [30], [40]] := by decide
example : chunk_sequence [10, 200, 20] 100 = [[10], [200], [20]] := by decide
example : natStr 2021 = "2021" := by decide
example : fmtYM datetime_min = "1-01" := by decide

theorem sumSizes_nil : sumSizes [] = 0 := rfl

theorem sumSizes_append (l1 l2 : List MailItemInfo) :
    sumSizes (l1 ++ l2) = sumSizes l1 + sumSizes l2 := by
  simp [sumSizes]

theorem sumSizes_singleton (it : MailItemInfo) : sumSizes [it] = it.size := by
  simp [sumSizes]

theorem groupBySizeAux_flatten (maxBytes : Int) :
    ∀ (items cur : List MailItemInfo) (csize : Int),
      (groupBySizeAux maxBytes items cur csize).flatten = cur ++ items := by
  intro items
  induction items with
  | nil =>
    intro cur csize
    by_cases h : cur = []
    · simp [groupBySizeAux, h]
    · simp [groupBySizeAux, h]
  | cons it rest ih =>
    intro cur csize
    by_cases h1 : it.size > maxBytes
    · by_cases h2 : cur = []
      · simp [groupBySizeAux, h1, h2, ih]
      · simp [groupBySizeAux, h1, h2, ih]
    · by_cases h2 : csize + it.size > maxBytes ∧ cur ≠ []
      · simp [groupBySizeAux, h1, h2, ih]
      · simp [groupBySizeAux, h1, h2, ih]

theorem groupBySizeAux_bound (maxBytes : Int) :
    ∀ (items cur : List MailItemInfo) (csize : Int),
      csize = sumSizes cur → (cur = [] ∨ sumSizes cur ≤ maxBytes) →
      ∀ b ∈ groupBySizeAux maxBytes items cur csize,
        sumSizes b ≤ maxBytes ∨ ∃ x, b = [x] ∧ maxBytes < x.size := by
  intro items
  induction items with
  | nil =>
    intro cur csize hcs hinv b hb
    by_cases h : cur = []
    · simp [groupBySizeAux, h] at hb
    · simp [groupBySizeAux, h] at hb
      subst hb
      rcases hinv with h0 | h0
      · exact absurd h0 h
      · exact Or.inl h0
  | cons it rest ih =>
    intro cur csize hcs hinv b hb
    by_cases h1 : it.size > maxBytes
    · by_cases h2 : cur = []
      · simp [groupBySizeAux, h1, h2] at hb
        rcases hb with hb | hb
        · exact Or.inr ⟨it, hb, h1⟩
        · exact ih [] 0 rfl (Or.inl rfl) b hb
      · simp [groupBySizeAux, h1, h2] at hb
        rcases hb with hb | hb | hb
        · subst hb
          rcases hinv with h0 | h0
          · exact absurd h0 h2
          · exact Or.inl h0
        · exact Or.inr ⟨it, hb, h1⟩
        · exact ih [] 0 rfl (Or.inl rfl) b hb
    · by_cases h2 : csize + it.size > maxBytes ∧ cur ≠ []
      · simp [groupBySizeAux, h1, h2] at hb
        rcases hb with hb | hb
        · subst hb
          rcases hinv with h0 | h0
          · exact absurd h0 h2.2
          · exact Or.inl h0
        · refine ih [it] it.size (by simp [sumSizes]) ?_ b hb
          exact Or.inr (by simpa [sumSizes] using not_lt.mp h1)
      · simp [groupBySizeAux, h1, h2] at hb
        refine ih (cur ++ [it]) (csize + it.size)
          (by simp [sumSizes_append, sumSizes_singleton, hcs]) ?_ b hb
        right
        rw [sumSizes_append, sumSizes_singleton, ← hcs]
        rcases Decidable.not_and_iff_or_not.mp h2 with h3 | h3
        · exact not_lt.mp h3
        · have hcur : cur = [] := Decidable.not_not.mp h3
          subst hcur
          simp only [sumSizes_nil] at hcs
          subst hcs
          simpa using not_lt.mp h1

/-- C1: for every item sequence and `max_bytes > 0`, each bucket of
`group_items_by_size` has summed size at most `max_bytes`, except
singleton buckets holding one item whose size exceeds `max_bytes`, and
concatenating the buckets in order yields the input sequence exactly. -/
theorem size_mode_buckets_correct (items : List MailItemInfo) (maxBytes : Int)
    (hpos : 0 < maxBytes) :
    (∀ b ∈ group_items_by_size items maxBytes,
        sumSizes b ≤ maxBytes ∨ ∃ x, b = [x] ∧ maxBytes < x.size) ∧
    (group_items_by_size items maxBytes).flatten = items := by
  constructor
  · exact groupBySizeAux_bound maxBytes items [] 0 rfl (Or.inl rfl)
  · simpa using groupBySizeAux_flatten maxBytes items [] 0

/-- C1 witness: the theorem applied to the spec's example sequence
(sizes 10, 20, 30, 40 with limit 50). -/
theorem size_mode_buckets_correct_witness :
    (group_items_by_size
      [⟨"a", "s", 10, none, "", none⟩, ⟨"b", "s", 20, none, "", none⟩,
       ⟨"c", "s", 30, none, "", none⟩, ⟨"d", "s", 40, none, "", none⟩]
      50).flatten =
      [⟨"a", "s", 10, none, "", none⟩, ⟨"b", "s", 20, none, "", none⟩,
       ⟨"c", "s", 30, none, "", none⟩, ⟨"d", "s", 40, none, "", none⟩] :=
  (size_mode_buckets_correct _ 50 (by decide)).2

theorem chunkAux_models (maxBytes : Int) :
    ∀ (items cur : List MailItemInfo) (csize : Int), csize = sumSizes cur →
      (groupBySizeAux maxBytes items cur csize).map (List.map MailItemInfo.size)
        = chunkAux maxBytes (items.map MailItemInfo.size)
            (cur.map MailItemInfo.size) csize := by
  intro items
  induction items with
  | nil =>
    intro cur csize hcs
    by_cases h : cur = []
    · simp [groupBySizeAux, chunkAux, h]
    · simp [groupBySizeAux, chunkAux, h, List.map_eq_nil_iff]
  | cons it rest ih =>
    intro cur csize hcs
    by_cases h1 : it.size > maxBytes
    · by_cases h2 : cur = []
      · simp [groupBySizeAux, chunkAux, h1, h2, ih [] 0 rfl]
      · simp [groupBySizeAux, chunkAux, h1, h2, List.map_eq_nil_iff, ih [] 0 rfl]
    · by_cases h2 : csize + it.size > maxBytes ∧ cur ≠ []
      · simp [groupBySizeAux, chunkAux, h1, h2, h2.1, ih [it] it.size (by simp [sumSizes])]
      · have h3 : ¬(csize + it.size > maxBytes) := by
          rcases Decidable.not_and_iff_or_not.mp h2 with h3 | h3
          · exact h3
          · have hcur : cur = [] := Decidable.not_not.mp h3
            subst hcur
            simp only [sumSizes_nil] at hcs
            subst hcs
            simpa using h1
        simp [groupBySizeAux, chunkAux, h1, h2, h3,
          ih (cur ++ [it]) (csize + it.size) (by simp [sumSizes_append, sumSizes_singleton, hcs])]

/-- C10: mapping each bucket of `group_items_by_size` to its items'
sizes yields exactly `chunk_sequence` applied to the items' sizes, for
items with non-negative sizes. -/
theorem chunk_sequence_refines_grouping (items : List MailItemInfo)
    (maxBytes : Int) (hnn : ∀ it ∈ items, 0 ≤ it.size) :
    (group_items_by_size items maxBytes).map (List.map MailItemInfo.size)
      = chunk_sequence (items.map MailItemInfo.size) maxBytes := by
  simpa [group_items_by_size, chunk_sequence] using
    chunkAux_models maxBytes items [] 0 rfl

/-- C10 witness: the refinement applied to items of sizes 10, 200, 20
with limit 100 (the spec's oversize example). -/
theorem chunk_sequence_refines_grouping_witness :
    (group_items_by_size
        [⟨"a", "s", 10, none, "", none⟩, ⟨"b", "s", 200, none, "", none⟩,
         ⟨"c", "s", 20, none, "", none⟩] 100).map (List.map MailItemInfo.size)
      = chunk_sequence [10, 200, 20] 100 :=
  chunk_sequence_refines_grouping _ 100 (by decide)

theorem valuesJoin_nil : valuesJoin [] = [] := rfl

theorem valuesJoin_cons (k : String) (l : List MailItemInfo)
    (rest : List (String × List MailItemInfo)) :
    valuesJoin ((k, l) :: rest) = l ++ valuesJoin rest := by
  simp [valuesJoin]

theorem valuesJoin_dictAppend (gs : List (String × List MailItemInfo))
    (k : String) (it : MailItemInfo) :
    List.Perm (valuesJoin (dictAppend gs k it)) (valuesJoin gs ++ [it]) := by
  induction gs with
  | nil => simp [dictAppend, valuesJoin]
  | cons p rest ih =>
    obtain ⟨k', l⟩ := p
    by_cases h : k' = k
    · simp only [dictAppend, if_pos h, valuesJoin_cons, List.append_assoc]
      exact List.Perm.append_left l List.perm_append_comm
    · simp only [dictAppend, if_neg h, valuesJoin_cons, List.append_assoc]
      exact List.Perm.append_left l ih

theorem month_fold_perm :
    ∀ (its : List MailItemInfo) (gs : List (String × List MailItemInfo)),
      List.Perm (valuesJoin (its.foldl monthStep gs)) (valuesJoin gs ++ its) := by
  intro its
  induction its with
  | nil => intro gs; simp
  | cons it rest ih =>
    intro gs
    simp only [List.foldl_cons]
    refine (ih (monthStep gs it)).trans ?_
    refine (List.Perm.append_right rest (valuesJoin_dictAppend gs _ it)).trans ?_
    simp

/-- The undated accumulator of the year fold is the input's undated
items, in order, appended to the starting accumulator. -/
theorem year_fold_snd :
    ∀ (its : List MailItemInfo)
      (p : List (String × List MailItemInfo) × List MailItemInfo),
      (its.foldl yearStep p).2 = p.2 ++ its.filter (fun it => it.received.isNone) := by
  intro its
  induction its with
  | nil => intro p; simp
  | cons it rest ih =>
    intro p
    simp only [List.foldl_cons]
    rcases hr : it.received with _ | d
    · simp [yearStep, hr, ih]
    · simp [yearStep, hr, ih]

theorem perm_move_singleton (V U rest : List MailItemInfo) (it : MailItemInfo) :
    List.Perm (((V ++ [it]) ++ U) ++ rest) ((V ++ U) ++ (it :: rest)) := by
  have h2 : List.Perm (([it] ++ U) ++ rest) ((U ++ [it]) ++ rest) :=
    List.Perm.append_right rest List.perm_append_comm
  have h3 := List.Perm.append_left V h2
  have e1 : ((V ++ [it]) ++ U) ++ rest = V ++ (([it] ++ U) ++ rest) := by
    simp [List.append_assoc]
  have e2 : (V ++ U) ++ (it :: rest) = V ++ ((U ++ [it]) ++ rest) := by
    simp [List.append_assoc]
  rw [e1, e2]
  exact h3

theorem year_fold_perm :
    ∀ (its : List MailItemInfo)
      (p : List (String × List MailItemInfo) × List MailItemInfo),
      List.Perm (valuesJoin (its.foldl yearStep p).1 ++ (its.foldl yearStep p).2)
        ((valuesJoin p.1 ++ p.2) ++ its) := by
  intro its
  induction its with
  | nil => intro p; simp
  | cons it rest ih =>
    intro p
    simp only [List.foldl_cons]
    refine (ih (yearStep p it)).trans ?_
    rcases hr : it.received with _ | d
    · simp [yearStep, hr]
    · simp only [yearStep, hr]
      exact (List.Perm.append_right rest
        (List.Perm.append_right p.2
          (valuesJoin_dictAppend p.1 (natStr d.year) it))).trans
        (perm_move_singleton _ _ _ _)


theorem natDigitsAux_digits :
    ∀ (fuel n : Nat), ∀ c ∈ natDigitsAux n fuel, ∃ d, d < 10 ∧ c = digitChar d := by
  intro fuel
  induction fuel with
  | zero => intro n c hc; simp [natDigitsAux] at hc
  | succ k ih =>
    intro n c hc
    by_cases h : n < 10
    · simp [natDigitsAux, h] at hc
      exact ⟨n, h, hc⟩
    · simp [natDigitsAux, h] at hc
      rcases hc with hc | hc
      · exact ih _ c hc
      · exact ⟨n % 10, Nat.mod_lt _ (by decide), hc⟩

theorem natStr_ne_unknown (n : Nat) : natStr n ≠ "Unknown_Date" := by
  intro h
  have hd : natDigitsAux n (n + 1) = "Unknown_Date".data := congrArg String.data h
  have hm : 'U' ∈ natDigitsAux n (n + 1) := by
    rw [hd]; decide
  obtain ⟨d, hd10, hc⟩ := natDigitsAux_digits (n + 1) n 'U' hm
  interval_cases d <;> exact absurd hc (by decide)

theorem valuesJoin_dictSet_fresh (gs : List (String × List MailItemInfo))
    (k : String) (v : List MailItemInfo) (h : ∀ p ∈ gs, p.1 ≠ k) :
    valuesJoin (dictSet gs k v) = valuesJoin gs ++ v := by
  induction gs with
  | nil => simp [dictSet, valuesJoin]
  | cons p rest ih =>
    obtain ⟨k', l⟩ := p
    have hk : k' ≠ k := h (k', l) (by simp)
    simp only [dictSet, if_neg hk, valuesJoin_cons]
    rw [ih (fun q hq => h q (by simp [hq]))]
    simp [List.append_assoc]

theorem dictAppend_keys (gs : List (String × List MailItemInfo)) (k : String)
    (it : MailItemInfo) :
    ∀ p ∈ dictAppend gs k it, p.1 = k ∨ ∃ q ∈ gs, p.1 = q.1 := by
  induction gs with
  | nil => intro p hp; simp [dictAppend] at hp; simp [hp]
  | cons q rest ih =>
    obtain ⟨k', l⟩ := q
    intro p hp
    by_cases h : k' = k
    · simp [dictAppend, h] at hp
      rcases hp with hp | hp
      · exact Or.inl (by simp [hp])
      · exact Or.inr ⟨p, by simp [hp]⟩
    · simp [dictAppend, h] at hp
      rcases hp with hp | hp
      · exact Or.inr ⟨(k', l), by simp, by simp [hp]⟩
      · rcases ih p hp with h1 | ⟨q, hq, h2⟩
        · exact Or.inl h1
        · exact Or.inr ⟨q, by simp [hq], h2⟩

theorem year_fold_keys :
    ∀ (its : List MailItemInfo)
      (p : List (String × List MailItemInfo) × List MailItemInfo),
      (∀ q ∈ p.1, ∃ n, q.1 = natStr n) →
      ∀ q ∈ (its.foldl yearStep p).1, ∃ n, q.1 = natStr n := by
  intro its
  induction its with
  | nil => intro p hp; simpa using hp
  | cons it rest ih =>
    intro p hp
    simp only [List.foldl_cons]
    rcases hr : it.received with _ | d
    · exact ih (yearStep p it) (by simpa [yearStep, hr] using hp)
    · refine ih (yearStep p it) ?_
      intro q hq
      simp only [yearStep, hr] at hq
      rcases dictAppend_keys p.1 (natStr d.year) it q hq with h1 | ⟨q', hq', h2⟩
      · exact ⟨d.year, h1⟩
      · rcases hp q' hq' with ⟨n, hn⟩
        exact ⟨n, h2.trans hn⟩

/-- C2: in each grouping mode (size, year, month) the buckets' multiset
union equals the input multiset exactly — no item lost, none duplicated —
and the empty input yields zero buckets. -/
theorem modes_partition_input (items : List MailItemInfo) (maxBytes : Int) :
    List.Perm (group_items_by_size items maxBytes).flatten items ∧
    List.Perm (valuesJoin (group_items_by_year items)) items ∧
    List.Perm (valuesJoin (group_items_by_month items)) items ∧
    group_items_by_size [] maxBytes = [] ∧
    group_items_by_year [] = [] ∧
    group_items_by_month [] = [] := by
  refine ⟨?_, ?_, ?_, rfl, rfl, rfl⟩
  · rw [group_items_by_size, groupBySizeAux_flatten maxBytes items [] 0]
    simp
  · have hperm := year_fold_perm items ([], [])
    simp only [valuesJoin_nil, List.nil_append] at hperm
    by_cases hu : (items.foldl yearStep ([], [])).2 = []
    · simp only [group_items_by_year, hu, if_pos rfl]
      simpa [hu] using hperm
    · simp only [group_items_by_year, if_neg hu]
      rw [valuesJoin_dictSet_fresh _ _ _ ?_]
      · exact hperm
      · intro q hq
        rcases year_fold_keys items ([], []) (by simp) q hq with ⟨n, hn⟩
        rw [hn]
        exact natStr_ne_unknown n
  · have hperm := month_fold_perm items []
    simpa using hperm

theorem mem_dictGet_dictAppend_self (gs : List (String × List MailItemInfo))
    (k : String) (it : MailItemInfo) : it ∈ dictGet (dictAppend gs k it) k := by
  induction gs with
  | nil => simp [dictAppend, dictGet]
  | cons q rest ih =>
    obtain ⟨k', l⟩ := q
    by_cases h : k' = k
    · simp [dictAppend, dictGet, h]
    · simp [dictAppend, dictGet, h, ih]

theorem mem_dictGet_dictAppend_mono (gs : List (String × List MailItemInfo))
    (k k0 : String) (it x : MailItemInfo) (hx : x ∈ dictGet gs k0) :
    x ∈ dictGet (dictAppend gs k it) k0 := by
  induction gs with
  | nil => simp [dictGet] at hx
  | cons q rest ih =>
    obtain ⟨k', l⟩ := q
    by_cases h : k' = k
    · by_cases h0 : k' = k0
      · simp_all [dictAppend, dictGet]
      · simp_all [dictAppend, dictGet]
    · by_cases h0 : k' = k0
      · simp_all [dictAppend, dictGet]
      · simp only [dictGet, if_neg h0] at hx
        simp [dictAppend, dictGet, h, h0, ih hx]

theorem dictGet_dictSet_self (gs : List (String × List MailItemInfo))
    (k : String) (v : List MailItemInfo) : dictGet (dictSet gs k v) k = v := by
  induction gs with
  | nil => simp [dictSet, dictGet]
  | cons q rest ih =>
    obtain ⟨k', l⟩ := q
    by_cases h : k' = k
    · simp [dictSet, dictGet, h]
    · simp [dictSet, dictGet, h, ih]

theorem dictGet_dictSet_other (gs : List (String × List MailItemInfo))
    (k k0 : String) (v : List MailItemInfo) (h0 : k0 ≠ k) :
    dictGet (dictSet gs k v) k0 = dictGet gs k0 := by
  induction gs with
  | nil => simp [dictSet, dictGet, Ne.symm h0]
  | cons q rest ih =>
    obtain ⟨k', l⟩ := q
    by_cases h : k' = k
    · subst h
      simp [dictSet, dictGet, Ne.symm h0]
    · by_cases h1 : k' = k0
      · subst h1
        simp [dictSet, dictGet, h]
      · simp [dictSet, dictGet, h, h1, ih]

theorem hasKey_dictSet_self (gs : List (String × List MailItemInfo))
    (k : String) (v : List MailItemInfo) : hasKey (dictSet gs k v) k = true := by
  induction gs with
  | nil => simp [dictSet, hasKey]
  | cons q rest ih =>
    obtain ⟨k', l⟩ := q
    by_cases h : k' = k
    · simp [dictSet, hasKey, h]
    · simp only [dictSet, if_neg h]
      simp only [hasKey] at ih ⊢
      simp [ih]

theorem hasKey_eq_false_of_fresh (gs : List (String × List MailItemInfo))
    (k : String) (h : ∀ p ∈ gs, p.1 ≠ k) : hasKey gs k = false := by
  simp only [hasKey, List.any_eq_false]
  intro p hp
  simpa using h p hp

theorem year_fold_get_mono :
    ∀ (its : List MailItemInfo)
      (p : List (String × List MailItemInfo) × List MailItemInfo)
      (k : String) (x : MailItemInfo), x ∈ dictGet p.1 k →
      x ∈ dictGet ((its.foldl yearStep p).1) k := by
  intro its
  induction its with
  | nil => intro p k x hx; simpa using hx
  | cons it rest ih =>
    intro p k x hx
    simp only [List.foldl_cons]
    rcases hr : it.received with _ | d
    · exact ih (yearStep p it) k x (by simpa [yearStep, hr] using hx)
    · exact ih (yearStep p it) k x
        (by simpa [yearStep, hr] using mem_dictGet_dictAppend_mono p.1 _ k it x hx)

theorem year_fold_mem_dated :
    ∀ (its : List MailItemInfo)
      (p : List (String × List MailItemInfo) × List MailItemInfo)
      (it : MailItemInfo) (d : PyDate), it ∈ its → it.received = some d →
      it ∈ dictGet ((its.foldl yearStep p).1) (natStr d.year) := by
  intro its
  induction its with
  | nil => intro p it d h; simp at h
  | cons a rest ih =>
    intro p it d hmem hr
    rcases List.mem_cons.mp hmem with he | hm
    · subst he
      simp only [List.foldl_cons]
      refine year_fold_get_mono rest (yearStep p it) (natStr d.year) it ?_
      simp only [yearStep, hr]
      exact mem_dictGet_dictAppend_self p.1 (natStr d.year) it
    · simp only [List.foldl_cons]
      exact ih (yearStep p a) it d hm hr

/-- C8: `group_items_by_year` assigns each dated item to the bucket keyed
by its year's decimal string and each undated item to the reserved
`"Unknown_Date"` bucket, which exists exactly when an undated item
exists; the spec's example (2021-03-01, 2022-07-15, undated) produces
exactly the buckets 2021, 2022 and Unknown_Date. -/
theorem year_mode_assignment :
    (∀ (items : List MailItemInfo) (it : MailItemInfo) (d : PyDate),
      it ∈ items → it.received = some d →
      it ∈ dictGet (group_items_by_year items) (natStr d.year)) ∧
    (∀ (items : List MailItemInfo) (it : MailItemInfo),
      it ∈ items → it.received = none →
      it ∈ dictGet (group_items_by_year items) "Unknown_Date") ∧
    (∀ items : List MailItemInfo,
      hasKey (group_items_by_year items) "Unknown_Date" = true ↔
        ∃ it ∈ items, it.received = none) ∧
    group_items_by_year
        [⟨"i1", "s", 1, some ⟨2021, 3, 1⟩, "", none⟩,
         ⟨"i2", "s", 2, some ⟨2022, 7, 15⟩, "", none⟩,
         ⟨"i3", "s", 3, none, "", none⟩] =
      [("2021", [⟨"i1", "s", 1, some ⟨2021, 3, 1⟩, "", none⟩]),
       ("2022", [⟨"i2", "s", 2, some ⟨2022, 7, 15⟩, "", none⟩]),
       ("Unknown_Date", [⟨"i3", "s", 3, none, "", none⟩])] := by
  refine ⟨?_, ?_, ?_, by decide⟩
  · intro items it d hmem hr
    have hin := year_fold_mem_dated items ([], []) it d hmem hr
    by_cases hu : (items.foldl yearStep ([], [])).2 = []
    · simpa [group_items_by_year, hu] using hin
    · simp only [group_items_by_year, if_neg hu]
      rw [dictGet_dictSet_other _ _ _ _ (natStr_ne_unknown d.year)]
      exact hin
  · intro items it hmem hr
    have hsnd := year_fold_snd items ([], [])
    have hin : it ∈ (items.foldl yearStep ([], [])).2 := by
      rw [hsnd]
      simp only [List.nil_append]
      exact List.mem_filter.mpr ⟨hmem, by simp [hr]⟩
    have hu : (items.foldl yearStep ([], [])).2 ≠ [] := by
      intro h
      rw [h] at hin
      simp at hin
    simp only [group_items_by_year, if_neg hu]
    rw [dictGet_dictSet_self]
    exact hin
  · intro items
    constructor
    · intro hk
      by_contra hno
      push_neg at hno
      have hfil : items.filter (fun it => it.received.isNone) = [] := by
        rw [List.filter_eq_nil_iff]
        intro it hit
        simpa using hno it hit
      have hu : (items.foldl yearStep ([], [])).2 = [] := by
        rw [year_fold_snd, hfil]
        rfl
      have hres : group_items_by_year items = (items.foldl yearStep ([], [])).1 := by
        simp [group_items_by_year, hu]
      rw [hres] at hk
      have hfresh : ∀ p ∈ (items.foldl yearStep ([], [])).1, p.1 ≠ "Unknown_Date" := by
        intro p hp
        rcases year_fold_keys items ([], []) (by simp) p hp with ⟨n, hn⟩
        rw [hn]
        exact natStr_ne_unknown n
      rw [hasKey_eq_false_of_fresh _ _ hfresh] at hk
      exact Bool.false_ne_true hk
    · rintro ⟨it, hmem, hr⟩
      have hin : it ∈ (items.foldl yearStep ([], [])).2 := by
        rw [year_fold_snd]
        simp only [List.nil_append]
        exact List.mem_filter.mpr ⟨hmem, by simp [hr]⟩
      have hu : (items.foldl yearStep ([], [])).2 ≠ [] := by
        intro h
        rw [h] at hin
        simp at hin
      simp only [group_items_by_year, if_neg hu]
      exact hasKey_dictSet_self _ _ _

/-- C8 witness: the dated-assignment clause applied to a single item
received 2021-03-01. -/
theorem year_mode_assignment_witness :
    (⟨"i1", "s", 1, some ⟨2021, 3, 1⟩, "", none⟩ : MailItemInfo) ∈
      dictGet (group_items_by_year [⟨"i1", "s", 1, some ⟨2021, 3, 1⟩, "", none⟩])
        (natStr 2021) :=
  year_mode_assignment.1 _ _ ⟨2021, 3, 1⟩ (by simp) rfl

/-- C3: the folder filter does NOT match the first slash-segment of
`folder_path`. Evaluated at the spec's own example: `_matches_folder_filter`
splits on a backslash and inspects `folder_parts[1]`, so the slash-separated
path `"Inbox/Sub"` (whose first slash-segment `"Inbox"` lower-cases to
`"inbox"`) does not match `{"inbox"}`, and `_apply_filters` with that
include set drops the item instead of keeping it. The empty-path clauses of
the claim do hold: an empty path matches no filter set. -/
theorem folder_filter_drops_slash_paths :
    _matches_folder_filter "Inbox/Sub" ["inbox"] = false ∧
    _apply_filters [⟨"i1", "s", 1, none, "Inbox/Sub", none⟩] ["inbox"] [] [] none
      = [] ∧
    pyToLower ((pySplit '/' "Inbox/Sub").headD "") = "inbox" ∧
    _matches_folder_filter "" ["inbox"] = false ∧
    _apply_filters [⟨"i2", "s", 1, none, "", none⟩] [] ["inbox"] [] none
      = [⟨"i2", "s", 1, none, "", none⟩] := by
  refine ⟨by decide, by decide, by decide, by decide, by decide⟩

theorem apply_filters_eq_filter (items : List MailItemInfo)
    (inc exc snd : List String) (dr : DateRange) :
    _apply_filters items inc exc snd dr = items.filter (filterPred inc exc snd dr) := by
  unfold _apply_filters filterPred
  rcases dr with _ | ⟨s, e⟩
  · by_cases h1 : inc ≠ [] <;> by_cases h2 : exc ≠ [] <;> by_cases h3 : snd ≠ [] <;>
      simp [h1, h2, h3, List.filter_filter]
  · by_cases h0 : s.isSome || e.isSome <;> by_cases h1 : inc ≠ [] <;>
      by_cases h2 : exc ≠ [] <;> by_cases h3 : snd ≠ [] <;>
      simp [h0, h1, h2, h3, List.filter_filter]

/-- C9: the filter pipeline is idempotent — applying `_apply_filters`
twice with the same arguments equals applying it once — and its result is
an order-preserving sublist of the input. -/
theorem filter_pipeline_idempotent (items : List MailItemInfo)
    (inc exc snd : List String) (dr : DateRange) :
    _apply_filters (_apply_filters items inc exc snd dr) inc exc snd dr
      = _apply_filters items inc exc snd dr ∧
    List.Sublist (_apply_filters items inc exc snd dr) items := by
  constructor
  · rw [apply_filters_eq_filter, apply_filters_eq_filter, List.filter_filter]
    refine List.filter_congr ?_
    intro a _
    exact Bool.and_self _
  · rw [apply_filters_eq_filter]
    exact List.filter_sublist items

/-- C6: `copy_items_optimized` evaluated at its failing inputs. First: a
non-empty item list processed in zero elapsed time raises
`ZeroDivisionError` — the `items_per_second` metric divides by
`total_time_ms / 1000` with no zero guard (performance_optimizer.py:178),
although `avg_time_per_item_ms` is guarded. Second: in performance mode a
failing transfer is swallowed by `_optimized_item_transfer` returning
`False`, so one attempted item yields `success_count = 0` and an empty
`failed_items` — the counts do not add up to the attempts. -/
theorem copy_metrics_divide_by_zero :
    copy_items_optimized [⟨"e1", "s", 1, none, "", none⟩] true 50
        (fun _ => none) (fun _ => false) (fun _ => false) 0
      = .error "ZeroDivisionError: float division by zero" ∧
    (copy_items_optimized [⟨"e1", "s", 1, none, "", none⟩] true 50
        (fun _ => some "COM error 0x80004005") (fun _ => false) (fun _ => false)
        5).map (fun r => (r.success_count, r.failed_items, r.cancelled))
      = .ok (0, [], false) := by
  refine ⟨rfl, rfl⟩

theorem processGroups_errs (env : SplitEnv) (dryRun : Bool) (stem : String) :
    ∀ (pairs : List (List MailItemInfo × String)) (j : Nat) (st : LoopSt),
      (∀ i, i < pairs.length → env.groupFail (j + i) = none) →
      (processGroups env dryRun stem pairs j st).errs = st.errs := by
  intro pairs
  induction pairs with
  | nil => intro j st _; rfl
  | cons p rest ih =>
    obtain ⟨g, n⟩ := p
    intro j st hfail
    have h0 : env.groupFail j = none := by simpa using hfail 0 (by simp)
    have hshift : ∀ i, i < rest.length → env.groupFail (j + 1 + i) = none := by
      intro i hi
      have h := hfail (i + 1) (by simpa using Nat.succ_lt_succ hi)
      have e : j + (i + 1) = j + 1 + i := by omega
      rwa [e] at h
    by_cases hc : env.cancelAtGroup j
    · simp [processGroups, hc]
    · by_cases hg : g = []
      · simp only [processGroups, if_neg hc, if_pos hg]
        exact ih (j + 1) st hshift
      · simp only [processGroups, if_neg hc, if_neg hg, h0]
        by_cases hd : dryRun
        · simp only [if_pos hd]
          exact ih (j + 1) _ hshift
        · simp only [if_neg hd]
          by_cases hcr : (env.copyGroup j).cancelled
          · simp [hcr]
          · simp only [hcr, if_neg Bool.false_ne_true]
            by_cases ht : env.targetExists j
            · simp only [if_pos ht]
              exact ih (j + 1) _ hshift
            · simp only [if_neg ht]
              exact ih (j + 1) _ hshift

theorem processGroups_break (env : SplitEnv) (dryRun : Bool) (stem : String) :
    ∀ (pairs : List (List MailItemInfo × String)) (k j : Nat) (st : LoopSt),
      k < pairs.length →
      (∀ i, i < k → env.cancelAtGroup (j + i) = false ∧
        (env.copyGroup (j + i)).cancelled = false) →
      (env.cancelAtGroup (j + k) = true ∨
        (∃ g n, pairs.get? k = some (g, n) ∧ g ≠ [] ∧
          env.groupFail (j + k) = none ∧ dryRun = false ∧
          (env.copyGroup (j + k)).cancelled = true)) →
      processGroups env dryRun stem pairs j st
        = processGroups env dryRun stem (pairs.take k) j st := by
  intro pairs
  induction pairs with
  | nil => intro k j st hk; exact absurd hk (by simp)
  | cons p rest ih =>
    obtain ⟨g, n⟩ := p
    intro k j st hk hpre hbrk
    cases k with
    | zero =>
      simp only [List.take_zero]
      rcases hbrk with hb | ⟨g', n', hget, hne, hfail, hdry, hcanc⟩
      · have hb' : env.cancelAtGroup j = true := by simpa using hb
        simp [processGroups, hb']
      · have hinj : (g, n) = (g', n') := by
          have h := hget
          simp only [List.get?] at h
          exact Option.some.inj h
        injection hinj with he1 he2
        subst he1
        subst hdry
        have hfail' : env.groupFail j = none := by simpa using hfail
        have hcanc' : (env.copyGroup j).cancelled = true := by simpa using hcanc
        by_cases hc : env.cancelAtGroup j
        · simp [processGroups, hc]
        · simp [processGroups, hc, hne, hfail', hcanc']
    | succ k' =>
      have h0 := hpre 0 (Nat.succ_pos k')
      have hc : env.cancelAtGroup j = false := by simpa using h0.1
      have hcr0 : (env.copyGroup j).cancelled = false := by simpa using h0.2
      have hk' : k' < rest.length := by simpa using Nat.lt_of_succ_lt_succ hk
      have hpre' : ∀ i, i < k' → env.cancelAtGroup (j + 1 + i) = false ∧
          (env.copyGroup (j + 1 + i)).cancelled = false := by
        intro i hi
        have h := hpre (i + 1) (Nat.succ_lt_succ hi)
        have e : j + (i + 1) = j + 1 + i := by omega
        rwa [e] at h
      have hbrk' : env.cancelAtGroup (j + 1 + k') = true ∨
          (∃ g' n', rest.get? k' = some (g', n') ∧ g' ≠ [] ∧
            env.groupFail (j + 1 + k') = none ∧ dryRun = false ∧
            (env.copyGroup (j + 1 + k')).cancelled = true) := by
        have e : j + (k' + 1) = j + 1 + k' := by omega
        rcases hbrk with hb | ⟨g', n', hget, hne, hfail, hdry, hcanc⟩
        · left; rwa [e] at hb
        · right
          refine ⟨g', n', by simpa using hget, hne, ?_, hdry, ?_⟩
          · rwa [e] at hfail
          · rwa [e] at hcanc
      have hrec := ih k' (j + 1)
      simp only [List.take_succ_cons]
      by_cases hg : g = []
      · simp only [processGroups, if_neg (by simp [hc] : ¬env.cancelAtGroup j = true), if_pos hg]
        exact hrec st hk' hpre' hbrk'
      · simp only [processGroups, if_neg (by simp [hc] : ¬env.cancelAtGroup j = true), if_neg hg]
        cases hfail : env.groupFail j with
        | some msg => exact hrec _ hk' hpre' hbrk'
        | none =>
          by_cases hd : dryRun
          · simp only [if_pos hd]
            exact hrec _ hk' hpre' hbrk'
          · simp only [if_neg hd, hcr0, if_neg Bool.false_ne_true]
            exact hrec _ hk' hpre' hbrk'

/-- C5: `split_pst` raises only for the pre-start size-mode validation
(missing or non-positive `max_size_bytes`); for every environment —
enumeration failures, per-group failures, unknown modes, cancellations —
it otherwise returns a `SplitResult`, and the returned `errors` field is
never `some []`: it is `none` exactly when no error string was recorded. -/
theorem split_never_throws_post_validation (mode : String)
    (maxSize : Option Int) (dryRun : Bool) (stem : String)
    (inc exc snd : List String) (dr : DateRange) (env : SplitEnv) :
    ((∃ r, split_pst mode maxSize dryRun stem inc exc snd dr env = Except.ok r)
      ↔ ¬(mode = "size" ∧ sizeInvalid maxSize = true)) ∧
    (∀ r, split_pst mode maxSize dryRun stem inc exc snd dr env = Except.ok r →
      r.errors ≠ some []) := by
  by_cases hv : mode = "size" ∧ sizeInvalid maxSize = true
  · constructor
    · constructor
      · rintro ⟨r, hr⟩
        unfold split_pst at hr
        rw [if_pos hv] at hr
        simp at hr
      · intro hn
        exact absurd hv hn
    · intro r hr
      unfold split_pst at hr
      rw [if_pos hv] at hr
      simp at hr
  · constructor
    · constructor
      · intro _
        exact hv
      · intro _
        unfold split_pst
        rw [if_neg hv]
        cases henum : env.enumerate with
        | error e => exact ⟨_, rfl⟩
        | ok items0 =>
          by_cases hce : env.cancelAfterEnum
          · simp only [hce, if_true]
            exact ⟨_, rfl⟩
          · simp only [hce, Bool.false_eq_true, if_false]
            by_cases hlen :
                (filterStage items0 (normalizeFilterSet inc)
                  (normalizeFilterSet exc) (normalizeFilterSet snd) dr).length = 0
            · simp only [hlen, if_true]
              exact ⟨_, rfl⟩
            · simp only [hlen, if_false]
              cases hmg : modeGroups mode maxSize
                  (filterStage items0 (normalizeFilterSet inc)
                    (normalizeFilterSet exc) (normalizeFilterSet snd) dr) with
              | error e => exact ⟨_, rfl⟩
              | ok pairs => exact ⟨_, rfl⟩
    · intro r hr
      unfold split_pst at hr
      rw [if_neg hv] at hr
      cases henum : env.enumerate with
      | error e =>
        rw [henum] at hr
        simp only [Except.ok.injEq] at hr
        subst hr
        simp
      | ok items0 =>
        rw [henum] at hr
        by_cases hce : env.cancelAfterEnum
        · simp only [hce, if_true] at hr
          simp only [Except.ok.injEq] at hr
          subst hr
          simp
        · simp only [hce, Bool.false_eq_true, if_false] at hr
          by_cases hlen :
              (filterStage items0 (normalizeFilterSet inc)
                (normalizeFilterSet exc) (normalizeFilterSet snd) dr).length = 0
          · simp only [hlen, if_true] at hr
            simp only [Except.ok.injEq] at hr
            subst hr
            simp
          · simp only [hlen, if_false] at hr
            cases hmg : modeGroups mode maxSize
                (filterStage items0 (normalizeFilterSet inc)
                  (normalizeFilterSet exc) (normalizeFilterSet snd) dr) with
            | error e =>
              rw [hmg] at hr
              simp only [Except.ok.injEq] at hr
              subst hr
              simp
            | ok pairs =>
              rw [hmg] at hr
              simp only [Except.ok.injEq] at hr
              subst hr
              simp only [ne_eq]
              by_cases he :
                  (processGroups env dryRun stem pairs 0 ⟨[], [], 0, 0⟩).errs = []
              · simp [he]
              · simp [he]

/-- C5 witness: the theorem applied to year mode over an environment whose
enumeration yields no items. -/
theorem split_never_throws_post_validation_witness :
    (∃ r, split_pst "year" none false "s" [] [] [] none envE = Except.ok r) ∧
    (SplitResult.mk [] 0 0 none).errors ≠ some [] :=
  ⟨((split_never_throws_post_validation "year" none false "s" [] [] [] none
      envE).1).mpr (by decide),
   (split_never_throws_post_validation "year" none false "s" [] [] [] none
      envE).2 ⟨[], 0, 0, none⟩ rfl⟩

/-- C7: `split_pst` does not dispatch mode `"folder"`: the run records
`"Split operation failed: Unknown mode: folder"` and creates nothing,
even though `_group_by_folder` — which would partition by top-level
folder with empty paths under `"Root"` — exists and the invocation
surface offers the mode. -/
theorem folder_mode_not_dispatched :
    split_pst "folder" none false "src" [] [] [] none envFolder
      = Except.ok ⟨[], 2, 0, some ["Split operation failed: Unknown mode: folder"]⟩ ∧
    _group_by_folder [itemInboxW, itemRootW]
      = [("Inbox", [itemInboxW]), ("Root", [itemRootW])] := by
  refine ⟨by decide, by decide⟩

/-- C4 counterexample: cancellation observed at the post-enumeration
check returns a `SplitResult` whose `errors` list is
`["Operation cancelled"]` — an error IS recorded, contradicting the
claim that cancellation records no error. -/
theorem cancellation_enum_records_error :
    split_pst "year" none false "src" [] [] [] none envCancel
      = Except.ok ⟨[], 0, 0, some ["Operation cancelled"]⟩ := by decide

/-- C4 (amended): when the run starts validly, enumeration succeeds and no
cancellation is seen at the post-enumeration check, a cancellation first
observed at group iteration `k` — at the top-of-iteration check or inside
that group's copy — makes `split_pst` return the partial work of the
first `k` groups with `errors = none` (no cancellation error recorded),
provided no group before `k` failed. Cancellation at the post-enumeration
check instead records the single error `"Operation cancelled"`
(see the counterexample). -/
theorem cancellation_mid_loop_partial (env : SplitEnv) (mode stem : String)
    (maxSize : Option Int) (inc exc snd : List String) (dr : DateRange)
    (items0 items' : List MailItemInfo)
    (pairs : List (List MailItemInfo × String)) (k : Nat)
    (hval : ¬(mode = "size" ∧ sizeInvalid maxSize = true))
    (henum : env.enumerate = .ok items0)
    (hcanc : env.cancelAfterEnum = false)
    (hfil : filterStage items0 (normalizeFilterSet inc) (normalizeFilterSet exc)
      (normalizeFilterSet snd) dr = items')
    (hne : items' ≠ [])
    (hgroups : modeGroups mode maxSize items' = .ok pairs)
    (hk : k < pairs.length)
    (hpre : ∀ i, i < k → env.cancelAtGroup i = false ∧
      (env.copyGroup i).cancelled = false ∧ env.groupFail i = none)
    (hbrk : env.cancelAtGroup k = true ∨
      (∃ g n, pairs.get? k = some (g, n) ∧ g ≠ [] ∧ env.groupFail k = none ∧
        (env.copyGroup k).cancelled = true)) :
    split_pst mode maxSize false stem inc exc snd dr env
      = Except.ok
          ⟨(processGroups env false stem (pairs.take k) 0 ⟨[], [], 0, 0⟩).created_files,
           items'.length,
           (processGroups env false stem (pairs.take k) 0 ⟨[], [], 0, 0⟩).total_bytes,
           none⟩ := by
  have hpre2 : ∀ i, i < k → env.cancelAtGroup (0 + i) = false ∧
      (env.copyGroup (0 + i)).cancelled = false := by
    intro i hi
    simpa using ⟨(hpre i hi).1, (hpre i hi).2.1⟩
  have hbrk2 : env.cancelAtGroup (0 + k) = true ∨
      (∃ g n, pairs.get? k = some (g, n) ∧ g ≠ [] ∧
        env.groupFail (0 + k) = none ∧ false = false ∧
        (env.copyGroup (0 + k)).cancelled = true) := by
    rcases hbrk with hb | ⟨g, n, hget, hne', hfail, hcanc'⟩
    · left; simpa using hb
    · right; exact ⟨g, n, hget, hne', by simpa using hfail, rfl, by simpa using hcanc'⟩
  have hbreak := processGroups_break env false stem pairs k 0 ⟨[], [], 0, 0⟩
    hk hpre2 hbrk2
  have hfail2 : ∀ i, i < (pairs.take k).length → env.groupFail (0 + i) = none := by
    intro i hi
    have hik : i < k := lt_of_lt_of_le hi (by simp [List.length_take])
    simpa using (hpre i hik).2.2
  have herrs := processGroups_errs env false stem (pairs.take k) 0 ⟨[], [], 0, 0⟩ hfail2
  unfold split_pst
  rw [if_neg hval, henum]
  simp only [hcanc, Bool.false_eq_true, if_false]
  rw [hfil]
  have hlen : ¬(items'.length = 0) := by
    intro h
    exact hne (List.length_eq_zero.mp h)
  rw [if_neg hlen, hgroups]
  simp [hbreak, herrs]

/-- C4 witness: a year-mode run over two one-item groups with
cancellation observed at group iteration 1 returns the first group's
created file and bytes with `errors = none`. -/
theorem cancellation_mid_loop_partial_witness :
    split_pst "year" none false "src" [] [] [] none envW
      = Except.ok ⟨["src_2020.pst"], 2, 1, none⟩ := by
  have h := cancellation_mid_loop_partial envW "year" "src" none [] [] [] none
    [itemW20, itemW21] [itemW20, itemW21]
    [([itemW20], "2020"), ([itemW21], "2021")] 1
    (by decide) rfl rfl rfl (by decide) (by decide) (by decide)
    (by decide) (Or.inl (by decide))
  exact h.trans (by decide)
